import Mathlib

/-!
Shallow embedding of the secular-equilibrium calculator
(`secular_equilibrium/calculator.py`).

The external nuclide-data library (`radioactivedecay`) is modelled as an
abstract `DataProvider`, following the capability set the code actually
uses: validity of a nuclide name, half-life in seconds (with `none`
standing for the float `+inf` of a stable nuclide), atomic mass, and the
ordered decay-mode table of (mode label, branching fraction, child)
triples.  Floating-point arithmetic is idealised as exact rational
arithmetic; `math.log(2)` is the concrete rational value of its IEEE-754
double.  Exceptions are modelled with `Except`/`Option`: the `ValueError`s
raised by `_get_branching_info` become the constructors of `CalcError`
(the spec's EquilibriumError / ChainError taxonomy), and the per-parent
result dictionaries become `ParentResult` records whose optional keys are
`Option` fields.
-/

namespace SecularEq

/-- One row of a nuclide's decay-mode table: the zipped
(`decay_modes()`, `branching_fractions()`, `progeny()`) triple. -/
structure DecayStep where
  mode : String
  fraction : ℚ
  child : String
deriving DecidableEq, Repr

/-- Abstract nuclide data provider standing for the `radioactivedecay`
library: `valid name` is whether `rd.Nuclide(name)` succeeds, `halfLife`
is `half_life('s')` with `none` for the float infinity of a stable
nuclide, `atomicMass` is `atomic_mass`, and `decaySteps` is the zipped
decay-mode table. -/
structure DataProvider where
  valid : String → Bool
  halfLife : String → Option ℚ
  atomicMass : String → ℚ
  decaySteps : String → List DecayStep

/-- A path entry produced by `_enumerate_chain_paths`: the dict with keys
`nodes`, `decay_modes`, `step_branching_fractions`, `chain_branching_ratio`. -/
structure ChainPath where
  nodes : List String
  decayModes : List String
  stepFractions : List ℚ
  chainRatio : ℚ
deriving DecidableEq, Repr

/-- `MAX_DEPTH` of `SecularEquilibriumCalculator`. -/
def MAX_DEPTH : Nat := 30

mutual

/-- The recursive `dfs` of `_enumerate_chain_paths`, with fuel
`MAX_DEPTH + 1 - depth` replacing the `depth > MAX_DEPTH` guard
(fuel `0` is exactly `depth > MAX_DEPTH`): target check,
branch truncation on an invalid current name (`rd.Nuclide` raising), and
otherwise the loop over the current nuclide's decay-mode table. -/
def dfs (P : DataProvider) (progeny : String) (fuel : Nat) (current : String)
    (visited nodes modes : List String) (fracs : List ℚ) (ratio : ℚ) :
    List ChainPath :=
  match fuel with
  | 0 => []
  | fuel' + 1 =>
    if current = progeny then
      [⟨nodes, modes, fracs, ratio⟩]
    else if P.valid current then
      dfsSteps P progeny fuel' (P.decaySteps current) visited nodes modes
        fracs ratio
    else []
termination_by (fuel, 0)

/-- The `for mode, fraction, child in zip(...)` loop of `dfs`: each step
whose child is a valid nuclide name not yet in the branch-local visited
set extends the path by a recursive call, and the discovered paths are
collected in loop order. -/
def dfsSteps (P : DataProvider) (progeny : String) (fuel : Nat)
    (steps : List DecayStep) (visited nodes modes : List String)
    (fracs : List ℚ) (ratio : ℚ) : List ChainPath :=
  match steps with
  | [] => []
  | s :: rest =>
    (if P.valid s.child ∧ s.child ∉ visited then
      dfs P progeny fuel s.child (s.child :: visited) (nodes ++ [s.child])
        (modes ++ [s.mode]) (fracs ++ [s.fraction]) (ratio * s.fraction)
    else []) ++
    dfsSteps P progeny fuel rest visited nodes modes fracs ratio
termination_by (fuel, steps.length)

end

/-- `_enumerate_chain_paths`: the trivial single-node path when
`parent == progeny`, otherwise the bounded depth-first search started at
`dfs(parent, {parent}, [parent], [], [], 1.0, 0)`. -/
def enumerateChainPaths (P : DataProvider) (parent progeny : String) :
    List ChainPath :=
  if parent = progeny then
    [⟨[parent], [], [], 1⟩]
  else
    dfs P progeny (MAX_DEPTH + 1) parent [parent] [parent] [] [] 1

/-- Python's substring test `pat in s` restricted to a leading position:
`charsLeadWith pat s` is true when `pat` starts `s`. -/
def charsLeadWith : List Char → List Char → Bool
  | [], _ => true
  | _ :: _, [] => false
  | a :: as, b :: bs => a = b && charsLeadWith as bs

/-- Python's substring containment `pat in s` over character lists. -/
def charsHaveSub (pat : List Char) : List Char → Bool
  | [] => pat.isEmpty
  | b :: bs => charsLeadWith pat (b :: bs) || charsHaveSub pat bs

/-- The mode-matching test of `_get_decay_fraction_for_nuclide`, i.e. the
Python expression `self.decay_type in mode` (substring containment). -/
def modeMatches (decayType mode : String) : Bool :=
  charsHaveSub decayType.data mode.data

/-- `_get_decay_fraction_for_nuclide` without its cache: `1.0` when no
decay-type filter is set, otherwise the loop accumulating the branching
fractions of the modes containing the decay type. -/
def getDecayFraction (P : DataProvider) (decayType : Option String)
    (nuclide : String) : ℚ :=
  match decayType with
  | none => 1
  | some dt =>
    (P.decaySteps nuclide).foldl
      (fun acc s => if modeMatches dt s.mode then acc + s.fraction else acc) 0

/-- The annotated per-path dict built in `_get_branching_info`, with keys
`nodes`, `decay_modes`, `step_branching_fractions`, `chain_branching_ratio`,
`decay_type_fraction_at_measured`, `path_branching_ratio`. -/
structure PathDetail where
  nodes : List String
  decayModes : List String
  stepFractions : List ℚ
  chainRatio : ℚ
  decayTypeFraction : ℚ
  pathContribution : ℚ
deriving DecidableEq, Repr

/-- Builds one `PathDetail` from an enumerated path and the shared
decay-type fraction, as in the loop body of `_get_branching_info`. -/
def annotatePath (dtf : ℚ) (p : ChainPath) : PathDetail :=
  ⟨p.nodes, p.decayModes, p.stepFractions, p.chainRatio, dtf, p.chainRatio * dtf⟩

/-- Stable insertion into a list kept in descending `path_branching_ratio`
order, matching Python's stable `sort(..., reverse=True)`. -/
def insertPathDetail (x : PathDetail) : List PathDetail → List PathDetail
  | [] => [x]
  | y :: ys =>
    if x.pathContribution < y.pathContribution then y :: insertPathDetail x ys
    else x :: y :: ys

/-- Stable descending sort by `path_branching_ratio` used on the
annotated path list in `_get_branching_info`. -/
def sortPathDetails : List PathDetail → List PathDetail
  | [] => []
  | x :: xs => insertPathDetail x (sortPathDetails xs)

/-- The branching-info dict of `_get_branching_info`, with keys
`branching_ratio`, `paths`, `decay_type_fraction_at_measured`. -/
structure BranchingInfo where
  branchingRatio : ℚ
  paths : List PathDetail
  decayTypeFraction : ℚ
deriving DecidableEq, Repr

/-- The `ValueError`s raised inside `_get_branching_info`, organised as the
spec's error taxonomy: invalid progeny name; stable progeny
(EquilibriumError); target not in the parent's decay chain, raised both
for an empty path list and for a total below epsilon (ChainError). -/
inductive CalcError where
  | invalidProgeny (progeny : String)
  | stableNuclide (progeny : String)
  | notInChain (progeny parent : String)
deriving DecidableEq, Repr

/-- The epsilon threshold `1e-15` of `_get_branching_info`. -/
def chainEpsilon : ℚ := 1 / 10 ^ 15

/-- The decay-type fraction chosen in `_get_branching_info`: the measured
nuclide's own fraction when a filter is set and `parent != progeny`,
otherwise `1.0` (the preserved historical self-path behaviour). -/
def decayTypeFractionOf (P : DataProvider) (decayType : Option String)
    (parent progeny : String) : ℚ :=
  if decayType ≠ none ∧ parent ≠ progeny then getDecayFraction P decayType progeny
  else 1

/-- `_get_branching_info` without its cache.  Checks the progeny name,
fails on an infinite half-life, enumerates the chain paths, fails when
there are none, annotates each path with its contribution, accumulates the
total branching ratio, fails when the total is below `1e-15`, and returns
the info dict with the paths sorted by descending contribution. -/
def getBranchingInfo (P : DataProvider) (decayType : Option String)
    (parent progeny : String) : Except CalcError BranchingInfo :=
  if P.valid progeny then
    match P.halfLife progeny with
    | none => .error (.stableNuclide progeny)
    | some _ =>
      let chainPaths := enumerateChainPaths P parent progeny
      if chainPaths.isEmpty then .error (.notInChain progeny parent)
      else
        let dtf := decayTypeFractionOf P decayType parent progeny
        let pathDetails := chainPaths.map (annotatePath dtf)
        let total := pathDetails.foldl (fun acc d => acc + d.pathContribution) 0
        if total < chainEpsilon then .error (.notInChain progeny parent)
        else .ok ⟨total, sortPathDetails pathDetails, dtf⟩
  else .error (.invalidProgeny progeny)

/-- The exact rational value of the IEEE-754 double `math.log(2)`. -/
def ln2 : ℚ := 6243314768165359 / 2 ^ 53

/-- `avogadro_number = 6.02214076e23` from `calculate`. -/
def avogadroNumber : ℚ := 6.02214076e23

/-- The year-in-seconds factor `365.25 * 24 * 3600` from `calculate`. -/
def secondsPerYear : ℚ := 365.25 * 24 * 3600

/-- `mass_coefficient = atomic_mass / (avogadro * λ)` with
`λ = log(2) / half-life-seconds`, as computed in `calculate`. -/
def massCoefficient (amu t : ℚ) : ℚ := amu / (avogadroNumber * (ln2 / t))

/-- Constructor arguments of `SecularEquilibriumCalculator` (after
decay-type normalisation and validation, which are outside the claims). -/
structure CalcInput where
  measuredNuclide : String
  measuredActivity : ℚ
  parentNuclides : List String
  decayType : Option String
  measuredUncertainty : Option ℚ
  includePaths : Bool
deriving DecidableEq, Repr

/-- The optional uncertainty keys of a per-parent result dict:
`activity_uncertainty_Bq`, `mass_uncertainty_g` (`none` = float infinity),
`relative_uncertainty` (`none` = Python `None`). -/
structure UncertaintyInfo where
  activityUncertainty : ℚ
  massUncertainty : Option ℚ
  relativeUncertainty : Option ℚ
deriving DecidableEq, Repr

/-- A per-parent result dict of `calculate`.  `mass`/`halflifeYr` use
`none` for float infinity; `atomicMass` is `none` when the key is absent
(failure records); `error` is the caught `CalcError` standing for the
dict's error string; `pathInfo` holds the optional `paths` and
`total_branching_ratio` keys when `include_paths` is set. -/
structure ParentResult where
  activity : ℚ
  mass : Option ℚ
  branchingRatio : ℚ
  halflifeYr : Option ℚ
  atomicMass : Option ℚ
  error : Option CalcError
  uncertainty : Option UncertaintyInfo
  pathInfo : Option (List PathDetail × ℚ)
deriving DecidableEq, Repr

/-- The failure record built in the `except ValueError` branch of
`calculate`: zeroed numeric fields, the error message, and empty path
fields when `include_paths` is set. -/
def failureRecord (c : CalcInput) (e : CalcError) : ParentResult :=
  { activity := 0
    mass := some 0
    branchingRatio := 0
    halflifeYr := some 0
    atomicMass := none
    error := some e
    uncertainty := none
    pathInfo := if c.includePaths then some ([], 0) else none }

/-- The successful per-parent record built in the body of the
`calculate` loop: activity, half-life, mass and the optional uncertainty
and path fields. -/
def successRecord (P : DataProvider) (c : CalcInput) (parent : String)
    (info : BranchingInfo) : ParentResult :=
  let branchingRatio := info.branchingRatio
  let parentActivity := c.measuredActivity / branchingRatio
  let halflifeS := P.halfLife parent
  let amu := P.atomicMass parent
  let massCoef := halflifeS.map fun t => massCoefficient amu t
  let uncertainty := c.measuredUncertainty.map fun mu =>
    let activityUncertainty := mu / branchingRatio
    { activityUncertainty := activityUncertainty
      massUncertainty := massCoef.map fun mc => activityUncertainty * mc
      relativeUncertainty :=
        if parentActivity = 0 then none
        else some (activityUncertainty / |parentActivity|) }
  { activity := parentActivity
    mass := massCoef.map fun mc => parentActivity * mc
    branchingRatio := branchingRatio
    halflifeYr := halflifeS.map fun t => t / secondsPerYear
    atomicMass := some amu
    error := none
    uncertainty := uncertainty
    pathInfo := if c.includePaths then some (info.paths, branchingRatio) else none }

/-- One iteration of the `for parent in self.parent_nuclides` loop of
`calculate`: the branching info (or caught error) and, on success, the
full numeric record. -/
def calcForParent (P : DataProvider) (c : CalcInput) (parent : String) :
    ParentResult :=
  match getBranchingInfo P c.decayType parent c.measuredNuclide with
  | .error e => failureRecord c e
  | .ok info => successRecord P c parent info

/-- The `calculate` loop over the parent list, producing one record per
parent in order. -/
def calcLoop (P : DataProvider) (c : CalcInput) :
    List String → List (String × ParentResult)
  | [] => []
  | p :: ps => (p, calcForParent P c p) :: calcLoop P c ps

/-- `calculate`: the per-parent results, keyed by parent name. -/
def calculate (P : DataProvider) (c : CalcInput) :
    List (String × ParentResult) :=
  calcLoop P c c.parentNuclides

/-- Association-list lookup used to model the instance caches. -/
def cacheLookup {α β : Type} [DecidableEq α] (k : α) :
    List (α × β) → Option β
  | [] => none
  | e :: rest => if e.1 = k then some e.2 else cacheLookup k rest

/-- The `_decay_fraction_cache` dict, keyed by `(nuclide, decay_type)`. -/
def FractionCache : Type := List ((String × String) × ℚ)

/-- The `_branching_cache` dict, keyed by `(parent, progeny, decay_type)`. -/
def BranchingCache : Type := List ((String × String × Option String) × BranchingInfo)

/-- The mutable state of one calculator instance: its two caches. -/
structure CalcState where
  branchingCache : BranchingCache
  fractionCache : FractionCache

/-- `_get_decay_fraction_for_nuclide` with its cache: returns `1.0`
immediately (no cache access) when no filter is set, otherwise consults
and fills `_decay_fraction_cache`. -/
def getDecayFractionC (P : DataProvider) (decayType : Option String)
    (cache : FractionCache) (nuclide : String) : ℚ × FractionCache :=
  match decayType with
  | none => (1, cache)
  | some dt =>
    match cacheLookup (nuclide, dt) cache with
    | some v => (v, cache)
    | none =>
      let v := (P.decaySteps nuclide).foldl
        (fun acc s => if modeMatches dt s.mode then acc + s.fraction else acc) 0
      (v, ((nuclide, dt), v) :: cache)

/-- The decay-type-fraction computation of `_get_branching_info` with the
fraction cache threaded through: calls the cached
`_get_decay_fraction_for_nuclide` when a filter is set and
`parent != progeny`, and otherwise yields `1.0` without touching the
cache. -/
def branchingDtfStep (P : DataProvider) (decayType : Option String)
    (fc : FractionCache) (parent progeny : String) : ℚ × FractionCache :=
  if decayType ≠ none ∧ parent ≠ progeny then
    getDecayFractionC P decayType fc progeny
  else (1, fc)

/-- `_get_branching_info` with its caches: consults `_branching_cache`
first, threads `_decay_fraction_cache` through the fraction computation,
and stores the info dict only on success (the error paths leave the
branching cache untouched, as the Python `raise`s do). -/
def getBranchingInfoC (P : DataProvider) (decayType : Option String)
    (st : CalcState) (parent progeny : String) :
    Except CalcError BranchingInfo × CalcState :=
  match cacheLookup (parent, progeny, decayType) st.branchingCache with
  | some info => (.ok info, st)
  | none =>
    if P.valid progeny then
      match P.halfLife progeny with
      | none => (.error (.stableNuclide progeny), st)
      | some _ =>
        let chainPaths := enumerateChainPaths P parent progeny
        if chainPaths.isEmpty then (.error (.notInChain progeny parent), st)
        else
          let dtfStep := branchingDtfStep P decayType st.fractionCache parent progeny
          let dtf := dtfStep.1
          let st1 : CalcState := ⟨st.branchingCache, dtfStep.2⟩
          let pathDetails := chainPaths.map (annotatePath dtf)
          let total := pathDetails.foldl (fun acc d => acc + d.pathContribution) 0
          if total < chainEpsilon then (.error (.notInChain progeny parent), st1)
          else
            let info : BranchingInfo := ⟨total, sortPathDetails pathDetails, dtf⟩
            (.ok info,
             ⟨((parent, progeny, decayType), info) :: st1.branchingCache,
              st1.fractionCache⟩)
    else (.error (.invalidProgeny progeny), st)

/-- The loop body of `calculate` running against the instance caches. -/
def calcForParentC (P : DataProvider) (c : CalcInput) (st : CalcState)
    (parent : String) : ParentResult × CalcState :=
  let step := getBranchingInfoC P c.decayType st parent c.measuredNuclide
  (match step.1 with
   | .error e => failureRecord c e
   | .ok info => successRecord P c parent info,
   step.2)

/-- The `calculate` loop threading the instance caches. -/
def calcLoopC (P : DataProvider) (c : CalcInput) (st : CalcState) :
    List String → List (String × ParentResult) × CalcState
  | [] => ([], st)
  | p :: ps =>
    let step := calcForParentC P c st p
    let rest := calcLoopC P c step.2 ps
    ((p, step.1) :: rest.1, rest.2)

/-- `calculate` as it actually runs on an instance: against, and
updating, the two caches. -/
def calculateC (P : DataProvider) (c : CalcInput) (st : CalcState) :
    List (String × ParentResult) × CalcState :=
  calcLoopC P c st c.parentNuclides

/-- The running total accumulated over the annotated paths in
`_get_branching_info` (the `total_branching_ratio` local). -/
def totalBranchingRatio (P : DataProvider) (decayType : Option String)
    (parent progeny : String) : ℚ :=
  ((enumerateChainPaths P parent progeny).map
    (annotatePath (decayTypeFractionOf P decayType parent progeny))).foldl
    (fun acc d => acc + d.pathContribution) 0

instance {ε α : Type} [DecidableEq ε] [DecidableEq α] :
    DecidableEq (Except ε α) := fun a b =>
  match a, b with
  | .ok x, .ok y => decidable_of_iff (x = y) (by simp)
  | .ok _, .error _ => isFalse (fun h => Except.noConfusion h)
  | .error _, .ok _ => isFalse (fun h => Except.noConfusion h)
  | .error x, .error y => decidable_of_iff (x = y) (by simp)

/-- A small concrete decay network standing in for the
`radioactivedecay` data: `A → B → D` (fraction 3/5 then 1) and
`A → C → D` (fraction 2/5 then 1), `D → E`, a stable nuclide `S`, a
stable nuclide `T` decaying to `A`, an isolated nuclide `X`, and a
non-nuclide child token `gamma` in `C`'s table. -/
def toy : DataProvider where
  valid := fun n =>
    n = "A" || n = "B" || n = "C" || n = "D" || n = "E" || n = "S" ||
    n = "T" || n = "X"
  halfLife := fun n =>
    if n = "A" then some 1000
    else if n = "B" then some 100
    else if n = "C" then some 50
    else if n = "D" then some 10
    else if n = "E" then some 1
    else if n = "X" then some 5
    else none
  atomicMass := fun n => if n = "A" then 200 else if n = "T" then 240 else 100
  decaySteps := fun n =>
    if n = "A" then [⟨"α", 3/5, "B"⟩, ⟨"β-", 2/5, "C"⟩]
    else if n = "B" then [⟨"β-", 1, "D"⟩]
    else if n = "C" then [⟨"α", 1, "D"⟩, ⟨"γ", 0, "gamma"⟩]
    else if n = "D" then [⟨"β-", 1, "E"⟩]
    else if n = "T" then [⟨"α", 1, "A"⟩]
    else []

/-- Calculator input with a stable measured nuclide. -/
def cStable : CalcInput := ⟨"S", 100, ["A", "B"], none, none, false⟩

/-- Calculator input measuring `D` against the ancestor `A`. -/
def cMain : CalcInput := ⟨"D", 100, ["A"], none, none, false⟩

/-- Calculator input with a measured-activity uncertainty. -/
def cUnc : CalcInput := ⟨"D", 100, ["A"], none, some 5, false⟩

/-- Calculator input whose first ancestor `X` is not connected to `D`. -/
def cBatch : CalcInput := ⟨"D", 100, ["X", "A"], none, none, false⟩

/-- Calculator input with a decay-type filter and path details. -/
def cCached : CalcInput := ⟨"D", 100, ["A", "X"], some "β-", none, true⟩

/-- Calculator input whose ancestor `T` is stable. -/
def cStableParent : CalcInput := ⟨"D", 100, ["T"], none, some 5, false⟩

/-- Correctness of the fraction cache: every stored entry equals the
uncached `_get_decay_fraction_for_nuclide` value for its key. -/
def FractionCacheOK (P : DataProvider) (fc : FractionCache) : Prop :=
  ∀ (n dt : String) (v : ℚ), cacheLookup (n, dt) fc = some v →
    v = getDecayFraction P (some dt) n

/-- Correctness of the branching cache: every stored entry equals the
uncached `_get_branching_info` result for its key. -/
def BranchingCacheOK (P : DataProvider) (bc : BranchingCache) : Prop :=
  ∀ (parent progeny : String) (dt : Option String) (info : BranchingInfo),
    cacheLookup (parent, progeny, dt) bc = some info →
    getBranchingInfo P dt parent progeny = .ok info

/-- Correctness of a full calculator-instance state. -/
def StateOK (P : DataProvider) (st : CalcState) : Prop :=
  BranchingCacheOK P st.branchingCache ∧ FractionCacheOK P st.fractionCache

/-- The empty caches a fresh calculator instance starts with. -/
def initialState : CalcState := ⟨[], []⟩

/-- The dominant enumerated path `A → B → D` of the toy network. -/
def pathABD : ChainPath := ⟨["A", "B", "D"], ["α", "β-"], [3/5, 1], 3/5⟩

/-- The branching info the toy network yields for `A → D` with no
decay-type filter. -/
def toyInfoAD : BranchingInfo :=
  ⟨1,
   [⟨["A", "B", "D"], ["α", "β-"], [3/5, 1], 3/5, 1, 3/5⟩,
    ⟨["A", "C", "D"], ["β-", "α"], [2/5, 1], 2/5, 1, 2/5⟩],
   1⟩

/-- The branching info the toy network yields for `T → D` with no
decay-type filter: `T` is stable but decays into `A`. -/
def toyInfoTD : BranchingInfo :=
  ⟨1,
   [⟨["T", "A", "B", "D"], ["α", "α", "β-"], [1, 3/5, 1], 3/5, 1, 3/5⟩,
    ⟨["T", "A", "C", "D"], ["α", "β-", "α"], [1, 2/5, 1], 2/5, 1, 2/5⟩],
   1⟩

theorem foldl_add_map_sum {α : Type} (f : α → ℚ) (l : List α) (s : ℚ) :
    l.foldl (fun acc x => acc + f x) s = s + (l.map f).sum := by
  induction l generalizing s with
  | nil => simp
  | cons x xs ih => simp [ih, add_assoc]

theorem foldl_filter_add_sum {α : Type} (q : α → Bool) (f : α → ℚ)
    (l : List α) (s : ℚ) :
    l.foldl (fun acc x => if q x then acc + f x else acc) s =
      s + ((l.filter q).map f).sum := by
  induction l generalizing s with
  | nil => simp
  | cons x xs ih => by_cases h : q x <;> simp [h, ih, add_assoc]

theorem chainEpsilon_pos : (0 : ℚ) < chainEpsilon := by norm_num [chainEpsilon]

theorem dfsSteps_chainRatio_of_dfs (P : DataProvider) (progeny : String)
    (fuel : Nat)
    (hdfs : ∀ (current : String) (visited nodes modes : List String)
      (fracs : List ℚ) (ratio : ℚ), ratio = fracs.prod →
      ∀ p ∈ dfs P progeny fuel current visited nodes modes fracs ratio,
        p.chainRatio = p.stepFractions.prod) :
    ∀ (steps : List DecayStep) (visited nodes modes : List String)
      (fracs : List ℚ) (ratio : ℚ), ratio = fracs.prod →
      ∀ p ∈ dfsSteps P progeny fuel steps visited nodes modes fracs ratio,
        p.chainRatio = p.stepFractions.prod := by
  intro steps
  induction steps with
  | nil =>
    intro visited nodes modes fracs ratio hr p hp
    simp [dfsSteps] at hp
  | cons s rest ih =>
    intro visited nodes modes fracs ratio hr p hp
    simp only [dfsSteps] at hp
    rw [List.mem_append] at hp
    rcases hp with hp | hp
    · by_cases hc : P.valid s.child ∧ s.child ∉ visited
      · rw [if_pos hc] at hp
        exact hdfs _ _ _ _ _ _ (by simp [hr]) p hp
      · rw [if_neg hc] at hp
        simp at hp
    · exact ih _ _ _ _ _ hr p hp

theorem dfs_chainRatio (P : DataProvider) (progeny : String) :
    ∀ (fuel : Nat) (current : String) (visited nodes modes : List String)
      (fracs : List ℚ) (ratio : ℚ), ratio = fracs.prod →
      ∀ p ∈ dfs P progeny fuel current visited nodes modes fracs ratio,
        p.chainRatio = p.stepFractions.prod := by
  intro fuel
  induction fuel with
  | zero =>
    intro current visited nodes modes fracs ratio hr p hp
    simp [dfs] at hp
  | succ n ih =>
    intro current visited nodes modes fracs ratio hr p hp
    simp only [dfs] at hp
    split_ifs at hp with hc hv
    · simp at hp
      subst hp
      simpa using hr
    · exact dfsSteps_chainRatio_of_dfs P progeny n ih _ _ _ _ _ _ hr p hp
    · simp at hp

theorem dfsSteps_nodup_of_dfs (P : DataProvider) (progeny : String)
    (fuel : Nat)
    (hdfs : ∀ (current : String) (visited nodes modes : List String)
      (fracs : List ℚ) (ratio : ℚ),
      nodes.Nodup → (∀ x ∈ nodes, x ∈ visited) →
      ∀ p ∈ dfs P progeny fuel current visited nodes modes fracs ratio,
        p.nodes.Nodup) :
    ∀ (steps : List DecayStep) (visited nodes modes : List String)
      (fracs : List ℚ) (ratio : ℚ),
      nodes.Nodup → (∀ x ∈ nodes, x ∈ visited) →
      ∀ p ∈ dfsSteps P progeny fuel steps visited nodes modes fracs ratio,
        p.nodes.Nodup := by
  intro steps
  induction steps with
  | nil =>
    intro visited nodes modes fracs ratio hnd hsub p hp
    simp [dfsSteps] at hp
  | cons s rest ih =>
    intro visited nodes modes fracs ratio hnd hsub p hp
    simp only [dfsSteps] at hp
    rw [List.mem_append] at hp
    rcases hp with hp | hp
    · by_cases hc : P.valid s.child ∧ s.child ∉ visited
      · rw [if_pos hc] at hp
        have hnotin : s.child ∉ nodes := fun hx => hc.2 (hsub _ hx)
        refine hdfs _ _ _ _ _ _ ?_ ?_ p hp
        · simp [List.nodup_append, hnd, hnotin]
        · intro x hx
          rcases List.mem_append.1 hx with hx | hx
          · exact List.mem_cons_of_mem _ (hsub x hx)
          · simp at hx
            subst hx
            exact List.mem_cons_self _ _
      · rw [if_neg hc] at hp
        simp at hp
    · exact ih _ _ _ _ _ hnd hsub p hp

theorem dfs_nodup (P : DataProvider) (progeny : String) :
    ∀ (fuel : Nat) (current : String) (visited nodes modes : List String)
      (fracs : List ℚ) (ratio : ℚ),
      nodes.Nodup → (∀ x ∈ nodes, x ∈ visited) →
      ∀ p ∈ dfs P progeny fuel current visited nodes modes fracs ratio,
        p.nodes.Nodup := by
  intro fuel
  induction fuel with
  | zero =>
    intro current visited nodes modes fracs ratio hnd hsub p hp
    simp [dfs] at hp
  | succ n ih =>
    intro current visited nodes modes fracs ratio hnd hsub p hp
    simp only [dfs] at hp
    split_ifs at hp with hc hv
    · simp at hp
      subst hp
      exact hnd
    · exact dfsSteps_nodup_of_dfs P progeny n ih _ _ _ _ _ _ hnd hsub p hp
    · simp at hp

theorem enumerateChainPaths_chainRatio (P : DataProvider)
    (parent progeny : String) :
    ∀ p ∈ enumerateChainPaths P parent progeny,
      p.chainRatio = p.stepFractions.prod := by
  intro p hp
  unfold enumerateChainPaths at hp
  split_ifs at hp with h
  · simp at hp
    subst hp
    simp
  · exact dfs_chainRatio P progeny _ _ _ _ _ _ _ (by simp) p hp

theorem enumerateChainPaths_nodup (P : DataProvider) (parent progeny : String) :
    ∀ p ∈ enumerateChainPaths P parent progeny, p.nodes.Nodup := by
  intro p hp
  unfold enumerateChainPaths at hp
  split_ifs at hp with h
  · simp at hp
    subst hp
    simp
  · refine dfs_nodup P progeny _ _ _ _ _ _ _ ?_ ?_ p hp
    · simp
    · intro x hx
      simpa using hx

theorem mem_insertPathDetail {y : PathDetail} (x : PathDetail)
    (l : List PathDetail) :
    y ∈ insertPathDetail x l ↔ y = x ∨ y ∈ l := by
  induction l with
  | nil => simp [insertPathDetail]
  | cons z zs ih =>
    rw [insertPathDetail]
    split_ifs with h
    · simp only [List.mem_cons, ih]
      tauto
    · simp only [List.mem_cons]

theorem mem_sortPathDetails {y : PathDetail} (l : List PathDetail) :
    y ∈ sortPathDetails l ↔ y ∈ l := by
  induction l with
  | nil => simp [sortPathDetails]
  | cons x xs ih =>
    rw [sortPathDetails, mem_insertPathDetail]
    simp [ih]

theorem getBranchingInfo_eq (P : DataProvider) (decayType : Option String)
    (parent progeny : String) :
    getBranchingInfo P decayType parent progeny =
      if P.valid progeny then
        match P.halfLife progeny with
        | none => .error (.stableNuclide progeny)
        | some _ =>
          if (enumerateChainPaths P parent progeny).isEmpty then
            .error (.notInChain progeny parent)
          else if totalBranchingRatio P decayType parent progeny < chainEpsilon then
            .error (.notInChain progeny parent)
          else
            .ok ⟨totalBranchingRatio P decayType parent progeny,
                 sortPathDetails ((enumerateChainPaths P parent progeny).map
                   (annotatePath (decayTypeFractionOf P decayType parent progeny))),
                 decayTypeFractionOf P decayType parent progeny⟩
      else .error (.invalidProgeny progeny) := rfl

theorem getBranchingInfo_ok_parts (P : DataProvider) (decayType : Option String)
    (parent progeny : String) (info : BranchingInfo)
    (h : getBranchingInfo P decayType parent progeny = .ok info) :
    P.valid progeny = true ∧
    (∃ t, P.halfLife progeny = some t) ∧
    enumerateChainPaths P parent progeny ≠ [] ∧
    info.branchingRatio = totalBranchingRatio P decayType parent progeny ∧
    info.decayTypeFraction = decayTypeFractionOf P decayType parent progeny ∧
    info.paths = sortPathDetails ((enumerateChainPaths P parent progeny).map
      (annotatePath (decayTypeFractionOf P decayType parent progeny))) ∧
    chainEpsilon ≤ totalBranchingRatio P decayType parent progeny := by
  rw [getBranchingInfo_eq] at h
  by_cases hv : P.valid progeny = true
  case neg =>
    rw [if_neg hv] at h
    exact Except.noConfusion h
  rw [if_pos hv] at h
  cases hl : P.halfLife progeny with
  | none =>
    simp only [hl] at h
    exact Except.noConfusion h
  | some t =>
    simp only [hl] at h
    by_cases h1 : (enumerateChainPaths P parent progeny).isEmpty = true
    · rw [if_pos h1] at h
      exact Except.noConfusion h
    · rw [if_neg h1] at h
      by_cases h2 : totalBranchingRatio P decayType parent progeny < chainEpsilon
      · rw [if_pos h2] at h
        exact Except.noConfusion h
      · rw [if_neg h2] at h
        injection h with h
        subst h
        refine ⟨hv, ⟨t, rfl⟩, ?_, rfl, rfl, rfl, not_lt.mp h2⟩
        intro hne
        exact h1 (by simp [hne])

theorem getBranchingInfo_ok_ratio_pos (P : DataProvider)
    (decayType : Option String) (parent progeny : String)
    (info : BranchingInfo)
    (h : getBranchingInfo P decayType parent progeny = .ok info) :
    0 < info.branchingRatio := by
  obtain ⟨-, -, -, hb, -, -, he⟩ := getBranchingInfo_ok_parts P decayType parent progeny info h
  rw [hb]
  exact lt_of_lt_of_le chainEpsilon_pos he

theorem totalBranchingRatio_eq_sum (P : DataProvider) (decayType : Option String)
    (parent progeny : String) :
    totalBranchingRatio P decayType parent progeny =
      ((enumerateChainPaths P parent progeny).map
        (fun p => p.chainRatio * decayTypeFractionOf P decayType parent progeny)).sum := by
  unfold totalBranchingRatio
  rw [foldl_add_map_sum]
  simp [annotatePath, List.map_map, Function.comp_def]

theorem calcLoop_append (P : DataProvider) (c : CalcInput)
    (l₁ l₂ : List String) :
    calcLoop P c (l₁ ++ l₂) = calcLoop P c l₁ ++ calcLoop P c l₂ := by
  induction l₁ with
  | nil => simp [calcLoop]
  | cons p ps ih => simp [calcLoop, ih]

theorem calcLoop_eq_map (P : DataProvider) (c : CalcInput) (l : List String) :
    calcLoop P c l = l.map fun p => (p, calcForParent P c p) := by
  induction l with
  | nil => simp [calcLoop]
  | cons p ps ih => simp [calcLoop, ih]

theorem calcForParent_of_error (P : DataProvider) (c : CalcInput)
    (parent : String) (e : CalcError)
    (h : getBranchingInfo P c.decayType parent c.measuredNuclide = .error e) :
    calcForParent P c parent = failureRecord c e := by
  unfold calcForParent
  rw [h]

theorem calcForParent_of_ok (P : DataProvider) (c : CalcInput)
    (parent : String) (info : BranchingInfo)
    (h : getBranchingInfo P c.decayType parent c.measuredNuclide = .ok info) :
    calcForParent P c parent = successRecord P c parent info := by
  unfold calcForParent
  rw [h]

theorem calcForParent_error_none (P : DataProvider) (c : CalcInput)
    (parent : String)
    (h : (calcForParent P c parent).error = none) :
    ∃ info, getBranchingInfo P c.decayType parent c.measuredNuclide = .ok info ∧
      calcForParent P c parent = successRecord P c parent info := by
  cases hg : getBranchingInfo P c.decayType parent c.measuredNuclide with
  | error e =>
    rw [calcForParent_of_error P c parent e hg] at h
    simp [failureRecord] at h
  | ok info => exact ⟨info, rfl, calcForParent_of_ok P c parent info hg⟩

theorem getDecayFractionC_spec (P : DataProvider) (decayType : Option String)
    (fc : FractionCache) (nuclide : String) (hfc : FractionCacheOK P fc) :
    (getDecayFractionC P decayType fc nuclide).1 =
      getDecayFraction P decayType nuclide ∧
    FractionCacheOK P (getDecayFractionC P decayType fc nuclide).2 := by
  cases decayType with
  | none => exact ⟨rfl, hfc⟩
  | some dt =>
    cases hl : cacheLookup (nuclide, dt) fc with
    | some v =>
      refine ⟨?_, ?_⟩
      · simp only [getDecayFractionC, hl]
        exact hfc _ _ _ hl
      · simp only [getDecayFractionC, hl]
        exact hfc
    | none =>
      refine ⟨?_, ?_⟩
      · simp only [getDecayFractionC, hl]
        rfl
      · simp only [getDecayFractionC, hl]
        intro n' dt' v' hlook
        simp only [cacheLookup] at hlook
        split_ifs at hlook with he
        · obtain ⟨rfl, rfl⟩ : nuclide = n' ∧ dt = dt' := by
            simpa [Prod.ext_iff] using he
          obtain rfl : _ = v' := (Option.some.injEq _ _).mp hlook
          rfl
        · exact hfc _ _ _ hlook

theorem branchingDtfStep_spec (P : DataProvider) (decayType : Option String)
    (fc : FractionCache) (parent progeny : String)
    (hfc : FractionCacheOK P fc) :
    (branchingDtfStep P decayType fc parent progeny).1 =
      decayTypeFractionOf P decayType parent progeny ∧
    FractionCacheOK P (branchingDtfStep P decayType fc parent progeny).2 := by
  unfold branchingDtfStep decayTypeFractionOf
  by_cases hcond : decayType ≠ none ∧ parent ≠ progeny
  · rw [if_pos hcond, if_pos hcond]
    exact getDecayFractionC_spec P decayType fc progeny hfc
  · rw [if_neg hcond, if_neg hcond]
    exact ⟨rfl, hfc⟩

theorem getBranchingInfoC_spec (P : DataProvider) (decayType : Option String)
    (st : CalcState) (parent progeny : String) (hst : StateOK P st) :
    (getBranchingInfoC P decayType st parent progeny).1 =
      getBranchingInfo P decayType parent progeny ∧
    StateOK P (getBranchingInfoC P decayType st parent progeny).2 := by
  cases hb : cacheLookup (parent, progeny, decayType) st.branchingCache with
  | some info =>
    have hpure := hst.1 _ _ _ _ hb
    simp only [getBranchingInfoC, hb]
    exact ⟨hpure.symm, hst⟩
  | none =>
    simp only [getBranchingInfoC, hb]
    rw [getBranchingInfo_eq]
    by_cases hv : P.valid progeny = true
    case neg =>
      rw [if_neg hv, if_neg hv]
      exact ⟨rfl, hst⟩
    rw [if_pos hv, if_pos hv]
    cases hl : P.halfLife progeny with
    | none =>
      simp only [hl]
      refine ⟨?_, hst⟩
      trivial
    | some t =>
      simp only [hl]
      by_cases h1 : (enumerateChainPaths P parent progeny).isEmpty = true
      · rw [if_pos h1, if_pos h1]
        exact ⟨rfl, hst⟩
      · rw [if_neg h1, if_neg h1]
        obtain ⟨hdtf, hfc'⟩ :=
          branchingDtfStep_spec P decayType st.fractionCache parent progeny hst.2
        rw [hdtf]
        unfold totalBranchingRatio
        by_cases h2 :
            ((enumerateChainPaths P parent progeny).map
              (annotatePath (decayTypeFractionOf P decayType parent progeny))).foldl
              (fun acc d => acc + d.pathContribution) 0 < chainEpsilon
        · rw [if_pos h2, if_pos h2]
          exact ⟨rfl, hst.1, hfc'⟩
        · rw [if_neg h2, if_neg h2]
          refine ⟨rfl, ?_, hfc'⟩
          intro parent' progeny' dt' info' hlook
          simp only [cacheLookup] at hlook
          split_ifs at hlook with he
          · obtain ⟨rfl, rfl, rfl⟩ : parent = parent' ∧ progeny = progeny' ∧ decayType = dt' := by
              simpa [Prod.ext_iff] using he
            obtain rfl : _ = info' := (Option.some.injEq _ _).mp hlook
            rw [getBranchingInfo_eq, if_pos hv, hl]
            simp only [if_neg h1]
            rw [totalBranchingRatio]
            rw [if_neg h2]
          · exact hst.1 _ _ _ _ hlook

theorem calcForParentC_spec (P : DataProvider) (c : CalcInput) (st : CalcState)
    (parent : String) (hst : StateOK P st) :
    (calcForParentC P c st parent).1 = calcForParent P c parent ∧
    StateOK P (calcForParentC P c st parent).2 := by
  obtain ⟨h1, h2⟩ :=
    getBranchingInfoC_spec P c.decayType st parent c.measuredNuclide hst
  constructor
  · simp only [calcForParentC]
    rw [h1]
    rfl
  · simp only [calcForParentC]
    exact h2

theorem calcLoopC_spec (P : DataProvider) (c : CalcInput) :
    ∀ (l : List String) (st : CalcState), StateOK P st →
      (calcLoopC P c st l).1 = calcLoop P c l ∧
      StateOK P (calcLoopC P c st l).2 := by
  intro l
  induction l with
  | nil =>
    intro st hst
    exact ⟨rfl, hst⟩
  | cons p ps ih =>
    intro st hst
    obtain ⟨h1, h2⟩ := calcForParentC_spec P c st p hst
    obtain ⟨h3, h4⟩ := ih _ h2
    constructor
    · simp only [calcLoopC, calcLoop]
      rw [h1, h3]
    · simp only [calcLoopC]
      exact h4

theorem calculateC_spec (P : DataProvider) (c : CalcInput) (st : CalcState)
    (hst : StateOK P st) :
    (calculateC P c st).1 = calculate P c ∧
    StateOK P (calculateC P c st).2 := by
  unfold calculateC calculate
  exact calcLoopC_spec P c c.parentNuclides st hst

theorem initialState_ok (P : DataProvider) : StateOK P initialState := by
  constructor
  · intro parent progeny dt info hlook
    simp [cacheLookup, initialState] at hlook
  · intro n dt v hlook
    simp [cacheLookup, initialState] at hlook

/-- C1: for every ancestor and measured nuclide whose branching-info
aggregation succeeds, the total branching ratio equals the sum over all
enumerated paths of (that path's chain ratio × the decay-type fraction),
and every enumerated path's stored chain ratio is exactly the product of
its per-step branching fractions. -/
theorem C1_total_branching_is_sum_over_paths (P : DataProvider)
    (decayType : Option String) (parent progeny : String)
    (info : BranchingInfo)
    (h : getBranchingInfo P decayType parent progeny = .ok info) :
    info.branchingRatio =
      ((enumerateChainPaths P parent progeny).map
        (fun p => p.chainRatio * info.decayTypeFraction)).sum ∧
    ∀ p ∈ enumerateChainPaths P parent progeny,
      p.chainRatio = p.stepFractions.prod := by
  obtain ⟨-, -, -, hb, hdtf, -, -⟩ :=
    getBranchingInfo_ok_parts P decayType parent progeny info h
  refine ⟨?_, enumerateChainPaths_chainRatio P parent progeny⟩
  rw [hb, hdtf, totalBranchingRatio_eq_sum]

/-- Witness for C1 on the toy network: the `A → D` aggregation succeeds
with total 1 = 3/5 + 2/5, and the dominant path stores 3/5 = 3/5 × 1. -/
theorem C1_witness :
    getBranchingInfo toy none "A" "D" = .ok toyInfoAD ∧
    toyInfoAD.branchingRatio =
      ((enumerateChainPaths toy "A" "D").map
        (fun p => p.chainRatio * toyInfoAD.decayTypeFraction)).sum ∧
    pathABD ∈ enumerateChainPaths toy "A" "D" ∧
    pathABD.chainRatio = pathABD.stepFractions.prod := by
  have hok : getBranchingInfo toy none "A" "D" = .ok toyInfoAD := by
    simp [getBranchingInfo, enumerateChainPaths, dfs, dfsSteps, toy, toyInfoAD,
      decayTypeFractionOf, annotatePath, sortPathDetails, insertPathDetail,
      chainEpsilon, MAX_DEPTH]
    norm_num
  have hmem : pathABD ∈ enumerateChainPaths toy "A" "D" := by
    simp [enumerateChainPaths, dfs, dfsSteps, toy, pathABD, MAX_DEPTH]
  obtain ⟨h1, h2⟩ :=
    C1_total_branching_is_sum_over_paths toy none "A" "D" toyInfoAD hok
  exact ⟨hok, h1, hmem, h2 pathABD hmem⟩

/-- C3: when the ancestor equals the measured nuclide the enumerator
returns exactly the one trivial path (one node, zero steps, chain ratio
1) for any data provider — no traversal of the decay network — and for a
valid non-stable nuclide the aggregator succeeds with branching ratio
exactly 1, whatever the decay-type filter. -/
theorem C3_self_path_trivial (P : DataProvider) (decayType : Option String)
    (parent : String) (t : ℚ) (hv : P.valid parent = true)
    (hl : P.halfLife parent = some t) :
    enumerateChainPaths P parent parent = [⟨[parent], [], [], 1⟩] ∧
    getBranchingInfo P decayType parent parent =
      .ok ⟨1, [⟨[parent], [], [], 1, 1, 1⟩], 1⟩ := by
  have henum : enumerateChainPaths P parent parent = [⟨[parent], [], [], 1⟩] := by
    unfold enumerateChainPaths
    rw [if_pos rfl]
  refine ⟨henum, ?_⟩
  rw [getBranchingInfo_eq, if_pos hv]
  simp only [hl]
  simp [henum, totalBranchingRatio, decayTypeFractionOf, annotatePath,
    sortPathDetails, insertPathDetail, chainEpsilon]
  norm_num

/-- Witness for C3 on the toy network, with an α filter set. -/
theorem C3_witness :
    toy.valid "D" = true ∧ toy.halfLife "D" = some 10 ∧
    enumerateChainPaths toy "D" "D" = [⟨["D"], [], [], 1⟩] ∧
    getBranchingInfo toy (some "α") "D" "D" =
      .ok ⟨1, [⟨["D"], [], [], 1, 1, 1⟩], 1⟩ := by
  obtain ⟨h1, h2⟩ :=
    C3_self_path_trivial toy (some "α") "D" 10 (by simp [toy]) (by simp [toy])
  exact ⟨by simp [toy], by simp [toy], h1, h2⟩

/-- C9: no nuclide identifier repeats within one enumerated path: every
path produced by the enumerator has pairwise-distinct nodes. -/
theorem C9_no_repeat_in_path (P : DataProvider) (parent progeny : String) :
    ∀ p ∈ enumerateChainPaths P parent progeny, p.nodes.Nodup :=
  enumerateChainPaths_nodup P parent progeny

/-- Witness for C9 on the toy network. -/
theorem C9_witness :
    pathABD ∈ enumerateChainPaths toy "A" "D" ∧ pathABD.nodes.Nodup := by
  have hmem : pathABD ∈ enumerateChainPaths toy "A" "D" := by
    simp [enumerateChainPaths, dfs, dfsSteps, toy, pathABD, MAX_DEPTH]
  exact ⟨hmem, C9_no_repeat_in_path toy "A" "D" pathABD hmem⟩

/-- C8: for a valid, non-stable measured target, the aggregator fails
with the not-in-chain ChainError exactly when the enumerator returns no
paths or the total branching ratio is below the 1e-15 epsilon, and
otherwise succeeds with the accumulated branching info. -/
theorem C8_chain_error_iff (P : DataProvider) (decayType : Option String)
    (parent progeny : String) (t : ℚ) (hv : P.valid progeny = true)
    (hl : P.halfLife progeny = some t) :
    (getBranchingInfo P decayType parent progeny =
        .error (.notInChain progeny parent) ↔
      (enumerateChainPaths P parent progeny = [] ∨
        totalBranchingRatio P decayType parent progeny < chainEpsilon)) ∧
    (¬(enumerateChainPaths P parent progeny = [] ∨
        totalBranchingRatio P decayType parent progeny < chainEpsilon) →
      getBranchingInfo P decayType parent progeny =
        .ok ⟨totalBranchingRatio P decayType parent progeny,
             sortPathDetails ((enumerateChainPaths P parent progeny).map
               (annotatePath (decayTypeFractionOf P decayType parent progeny))),
             decayTypeFractionOf P decayType parent progeny⟩) := by
  rw [getBranchingInfo_eq, if_pos hv]
  simp only [hl]
  constructor
  · constructor
    · intro h
      by_cases h1 : (enumerateChainPaths P parent progeny).isEmpty = true
      · exact Or.inl (by simpa using h1)
      · rw [if_neg h1] at h
        by_cases h2 : totalBranchingRatio P decayType parent progeny < chainEpsilon
        · exact Or.inr h2
        · rw [if_neg h2] at h
          exact Except.noConfusion h
    · intro h
      rcases h with h | h
      · rw [if_pos (by simp [h])]
      · by_cases h1 : (enumerateChainPaths P parent progeny).isEmpty = true
        · rw [if_pos h1]
        · rw [if_neg h1, if_pos h]
  · intro h
    push_neg at h
    rw [if_neg (by simpa using h.1), if_neg (not_lt.mpr h.2)]

/-- Witness for C8: on the toy network `X` has no path to `D`, giving the
ChainError, while `A → D` succeeds. -/
theorem C8_witness :
    toy.valid "D" = true ∧ toy.halfLife "D" = some 10 ∧
    getBranchingInfo toy none "X" "D" = .error (.notInChain "D" "X") ∧
    getBranchingInfo toy none "A" "D" =
      .ok ⟨totalBranchingRatio toy none "A" "D",
           sortPathDetails ((enumerateChainPaths toy "A" "D").map
             (annotatePath (decayTypeFractionOf toy none "A" "D"))),
           decayTypeFractionOf toy none "A" "D"⟩ := by
  obtain ⟨hiffX, -⟩ :=
    C8_chain_error_iff toy none "X" "D" 10 (by simp [toy]) (by simp [toy])
  obtain ⟨-, hokA⟩ :=
    C8_chain_error_iff toy none "A" "D" 10 (by simp [toy]) (by simp [toy])
  refine ⟨by simp [toy], by simp [toy], ?_, ?_⟩
  · exact hiffX.mpr (Or.inl (by
      simp [enumerateChainPaths, dfs, dfsSteps, toy, MAX_DEPTH]))
  · refine hokA ?_
    rintro (h | h)
    · revert h
      simp [enumerateChainPaths, dfs, dfsSteps, toy, MAX_DEPTH]
    · revert h
      simp [totalBranchingRatio, enumerateChainPaths, dfs, dfsSteps, toy,
        MAX_DEPTH, annotatePath, decayTypeFractionOf, chainEpsilon]
      norm_num

/-- C5: under a decay-type filter with ancestor ≠ measured nuclide, the
decay-type fraction applied uniformly to every annotated path is the sum
of the measured nuclide's own branching fractions whose mode label
matches (contains) the requested decay type; with no filter it is 1. -/
theorem C5_decay_type_fraction (P : DataProvider) (decayType : Option String)
    (parent progeny : String) (info : BranchingInfo)
    (h : getBranchingInfo P decayType parent progeny = .ok info) :
    (∀ d, decayType = some d → parent ≠ progeny →
      info.decayTypeFraction =
        (((P.decaySteps progeny).filter fun s => modeMatches d s.mode).map
          (fun s => s.fraction)).sum) ∧
    (decayType = none → info.decayTypeFraction = 1) ∧
    (∀ pd ∈ info.paths,
      pd.decayTypeFraction = info.decayTypeFraction ∧
      pd.pathContribution = pd.chainRatio * info.decayTypeFraction) := by
  obtain ⟨-, -, -, -, hdtf, hpaths, -⟩ :=
    getBranchingInfo_ok_parts P decayType parent progeny info h
  refine ⟨?_, ?_, ?_⟩
  · intro d hd hne
    subst hd
    rw [hdtf, decayTypeFractionOf, if_pos ⟨by simp, hne⟩]
    simp only [getDecayFraction]
    rw [foldl_filter_add_sum (fun s : DecayStep => modeMatches d s.mode)
      (fun s : DecayStep => s.fraction) (P.decaySteps progeny) 0]
    simp
  · intro hd
    subst hd
    rw [hdtf, decayTypeFractionOf]
    simp
  · intro pd hpd
    rw [hpaths, mem_sortPathDetails] at hpd
    obtain ⟨p, hp, rfl⟩ := List.mem_map.1 hpd
    rw [hdtf]
    exact ⟨rfl, rfl⟩

/-- Witness for C5: with the β- filter, the fraction at `D` is the sum of
`D`'s matching branching fractions (= 1), giving the same info as the
unfiltered query. -/
theorem C5_witness :
    getBranchingInfo toy (some "β-") "A" "D" = .ok toyInfoAD ∧
    toyInfoAD.decayTypeFraction =
      (((toy.decaySteps "D").filter fun s => modeMatches "β-" s.mode).map
        (fun s => s.fraction)).sum := by
  have hok : getBranchingInfo toy (some "β-") "A" "D" = .ok toyInfoAD := by
    simp [getBranchingInfo, enumerateChainPaths, dfs, dfsSteps, toy, toyInfoAD,
      decayTypeFractionOf, getDecayFraction, modeMatches, charsHaveSub,
      charsLeadWith, annotatePath, sortPathDetails, insertPathDetail,
      chainEpsilon, MAX_DEPTH]
    norm_num
  obtain ⟨h1, -, -⟩ :=
    C5_decay_type_fraction toy (some "β-") "A" "D" toyInfoAD hok
  exact ⟨hok, h1 "β-" rfl (by simp)⟩

/-- C2 counterexample: with the toy provider, measured nuclide `S` stable
and two ancestors, `calculate` does not raise — it returns a per-ancestor
failure record for each ancestor, contradicting the claim that the
calculation raises rather than producing any per-ancestor records. -/
theorem C2_counterexample :
    calculate toy cStable =
      [("A", failureRecord cStable (.stableNuclide "S")),
       ("B", failureRecord cStable (.stableNuclide "S"))] := by
  have hbr : ∀ p, getBranchingInfo toy none p "S" =
      .error (.stableNuclide "S") := by
    intro p
    rw [getBranchingInfo_eq, if_pos (by simp [toy])]
    simp [toy]
  show calcLoop toy cStable ["A", "B"] = _
  rw [calcLoop, calcLoop, calcLoop]
  rw [calcForParent_of_error toy cStable "A" _ (hbr "A"),
    calcForParent_of_error toy cStable "B" _ (hbr "B")]

/-- C2 (amended): when the measured nuclide is a valid, stable name, every
ancestor's branching-info query fails with the stable-nuclide
EquilibriumError (the half-life gate precedes path enumeration), and the
calculation catches that failure per ancestor: it returns a zeroed
failure record for every ancestor in the list instead of raising. -/
theorem C2_stable_measured_fails_per_ancestor (P : DataProvider)
    (c : CalcInput) (hv : P.valid c.measuredNuclide = true)
    (hs : P.halfLife c.measuredNuclide = none) :
    (∀ parent, getBranchingInfo P c.decayType parent c.measuredNuclide =
      .error (.stableNuclide c.measuredNuclide)) ∧
    calculate P c = c.parentNuclides.map
      (fun p => (p, failureRecord c (.stableNuclide c.measuredNuclide))) := by
  have hbr : ∀ parent,
      getBranchingInfo P c.decayType parent c.measuredNuclide =
        .error (.stableNuclide c.measuredNuclide) := by
    intro parent
    rw [getBranchingInfo_eq, if_pos hv]
    simp [hs]
  refine ⟨hbr, ?_⟩
  unfold calculate
  rw [calcLoop_eq_map]
  apply List.map_congr_left
  intro p hp
  rw [calcForParent_of_error P c p _ (hbr p)]

/-- Witness for the amended C2 on the toy network. -/
theorem C2_witness :
    toy.valid "S" = true ∧ toy.halfLife "S" = none ∧
    getBranchingInfo toy cStable.decayType "A" cStable.measuredNuclide =
      .error (.stableNuclide cStable.measuredNuclide) ∧
    calculate toy cStable = cStable.parentNuclides.map
      (fun p => (p, failureRecord cStable
        (.stableNuclide cStable.measuredNuclide))) := by
  obtain ⟨h1, h2⟩ := C2_stable_measured_fails_per_ancestor toy cStable
    (by simp [toy, cStable]) (by simp [toy, cStable])
  exact ⟨by simp [toy], by simp [toy], h1 "A", h2⟩

/-- C4: the per-parent loop of `calculate` is independent per ancestor:
for any decomposition of the ancestor list, the batch result is the
concatenation of the per-ancestor results in order, and an ancestor whose
branching-info query raises ChainError/EquilibriumError contributes
exactly the zeroed failure record carrying that error, while the
remaining ancestors are still processed. -/
theorem C4_failure_is_per_ancestor (P : DataProvider) (c : CalcInput)
    (l₁ : List String) (p : String) (l₂ : List String)
    (hp : c.parentNuclides = l₁ ++ p :: l₂) :
    calculate P c =
      calcLoop P c l₁ ++ (p, calcForParent P c p) :: calcLoop P c l₂ ∧
    ∀ e, getBranchingInfo P c.decayType p c.measuredNuclide = .error e →
      calcForParent P c p = failureRecord c e := by
  constructor
  · unfold calculate
    rw [hp, calcLoop_append, calcLoop]
  · intro e he
    exact calcForParent_of_error P c p e he

/-- Witness for C4: in the batch `["X", "A"]` measuring `D`, the
unconnected ancestor `X` yields the failure record and `A` is still
processed. -/
theorem C4_witness :
    cBatch.parentNuclides = [] ++ "X" :: ["A"] ∧
    calculate toy cBatch =
      calcLoop toy cBatch [] ++ ("X", calcForParent toy cBatch "X") ::
        calcLoop toy cBatch ["A"] ∧
    calcForParent toy cBatch "X" =
      failureRecord cBatch (.notInChain "D" "X") := by
  obtain ⟨h1, h2⟩ := C4_failure_is_per_ancestor toy cBatch [] "X" ["A"] rfl
  refine ⟨rfl, h1, h2 _ ?_⟩
  rw [getBranchingInfo_eq]
  simp [enumerateChainPaths, dfs, dfsSteps, toy, cBatch, MAX_DEPTH]

/-- C6: in every successful ancestor record, the mass is
activity × atomic mass / (Avogadro × λ) with λ = ln 2 / half-life in
seconds when the ancestor's half-life is finite, and +infinity (modelled
as `none`) when the ancestor's half-life is infinite. -/
theorem C6_mass_formula (P : DataProvider) (c : CalcInput) (parent : String)
    (h : (calcForParent P c parent).error = none) :
    (∀ t, P.halfLife parent = some t →
      (calcForParent P c parent).mass =
        some ((calcForParent P c parent).activity * P.atomicMass parent /
          (avogadroNumber * (ln2 / t)))) ∧
    (P.halfLife parent = none → (calcForParent P c parent).mass = none) := by
  obtain ⟨info, hg, hr⟩ := calcForParent_error_none P c parent h
  rw [hr]
  constructor
  · intro t ht
    simp only [successRecord, ht, Option.map_some']
    rw [massCoefficient, mul_div_assoc]
  · intro ht
    simp [successRecord, ht]

/-- Witness for C6: the finite-half-life ancestor `A` gets the λ-based
mass, the stable ancestor `T` gets an infinite mass. -/
theorem C6_witness :
    (calcForParent toy cMain "A").error = none ∧
    toy.halfLife "A" = some 1000 ∧
    (calcForParent toy cMain "A").mass =
      some ((calcForParent toy cMain "A").activity * toy.atomicMass "A" /
        (avogadroNumber * (ln2 / 1000))) ∧
    (calcForParent toy cStableParent "T").error = none ∧
    toy.halfLife "T" = none ∧
    (calcForParent toy cStableParent "T").mass = none := by
  have hokA : getBranchingInfo toy none "A" "D" = .ok toyInfoAD := by
    simp [getBranchingInfo, enumerateChainPaths, dfs, dfsSteps, toy, toyInfoAD,
      decayTypeFractionOf, annotatePath, sortPathDetails, insertPathDetail,
      chainEpsilon, MAX_DEPTH]
    norm_num
  have hokT : getBranchingInfo toy none "T" "D" = .ok toyInfoTD := by
    simp [getBranchingInfo, enumerateChainPaths, dfs, dfsSteps, toy, toyInfoTD,
      decayTypeFractionOf, annotatePath, sortPathDetails, insertPathDetail,
      chainEpsilon, MAX_DEPTH]
    norm_num
  have hrA : calcForParent toy cMain "A" = successRecord toy cMain "A" toyInfoAD :=
    calcForParent_of_ok toy cMain "A" toyInfoAD hokA
  have hrT : calcForParent toy cStableParent "T" =
      successRecord toy cStableParent "T" toyInfoTD :=
    calcForParent_of_ok toy cStableParent "T" toyInfoTD hokT
  have herrA : (calcForParent toy cMain "A").error = none := by
    rw [hrA]; rfl
  have herrT : (calcForParent toy cStableParent "T").error = none := by
    rw [hrT]; rfl
  obtain ⟨hfin, -⟩ := C6_mass_formula toy cMain "A" herrA
  obtain ⟨-, hinf⟩ := C6_mass_formula toy cStableParent "T" herrT
  exact ⟨herrA, by simp [toy], hfin 1000 (by simp [toy]), herrT,
    by simp [toy], hinf (by simp [toy])⟩

/-- C7: with a supplied measured-activity uncertainty, every successful
ancestor record has activity = measured activity ÷ branching ratio and
activity uncertainty = measured uncertainty ÷ branching ratio, hence
uncertainty ÷ activity = measured uncertainty ÷ measured activity when
the activity is nonzero; the relative uncertainty is `none` exactly when
the activity is zero. -/
theorem C7_uncertainty_scaling (P : DataProvider) (c : CalcInput)
    (parent : String) (mu : ℚ)
    (h : (calcForParent P c parent).error = none)
    (hmu : c.measuredUncertainty = some mu) :
    ∃ u, (calcForParent P c parent).uncertainty = some u ∧
      (calcForParent P c parent).activity =
        c.measuredActivity / (calcForParent P c parent).branchingRatio ∧
      u.activityUncertainty =
        mu / (calcForParent P c parent).branchingRatio ∧
      ((calcForParent P c parent).activity ≠ 0 →
        u.activityUncertainty / (calcForParent P c parent).activity =
          mu / c.measuredActivity) ∧
      (u.relativeUncertainty = none ↔
        (calcForParent P c parent).activity = 0) := by
  obtain ⟨info, hg, hr⟩ := calcForParent_error_none P c parent h
  have hbpos : 0 < info.branchingRatio :=
    getBranchingInfo_ok_ratio_pos _ _ _ _ _ hg
  rw [hr]
  simp only [successRecord, hmu, Option.map_some']
  refine ⟨_, by trivial, by trivial, by trivial, ?_, ?_⟩
  · intro ha
    rw [div_div_div_eq, mul_comm info.branchingRatio c.measuredActivity,
      mul_div_mul_right _ _ (ne_of_gt hbpos)]
  · by_cases h0 : c.measuredActivity / info.branchingRatio = 0 <;>
      simp [h0]

/-- Witness for C7: measured uncertainty 5 on 100 with branching ratio 1
for ancestor `A` gives relative uncertainty 5/100. -/
theorem C7_witness :
    (calcForParent toy cUnc "A").error = none ∧
    cUnc.measuredUncertainty = some 5 ∧
    (calcForParent toy cUnc "A").activity ≠ 0 ∧
    ((calcForParent toy cUnc "A").uncertainty.map fun u =>
      u.activityUncertainty / (calcForParent toy cUnc "A").activity) =
      some (5 / cUnc.measuredActivity) := by
  have hok : getBranchingInfo toy none "A" "D" = .ok toyInfoAD := by
    simp [getBranchingInfo, enumerateChainPaths, dfs, dfsSteps, toy, toyInfoAD,
      decayTypeFractionOf, annotatePath, sortPathDetails, insertPathDetail,
      chainEpsilon, MAX_DEPTH]
    norm_num
  have hr : calcForParent toy cUnc "A" = successRecord toy cUnc "A" toyInfoAD :=
    calcForParent_of_ok toy cUnc "A" toyInfoAD hok
  have herr : (calcForParent toy cUnc "A").error = none := by
    rw [hr]; rfl
  have hact : (calcForParent toy cUnc "A").activity ≠ 0 := by
    rw [hr]
    simp only [successRecord]
    simp [cUnc, toyInfoAD]
  obtain ⟨u, hu, -, -, hdiv, -⟩ :=
    C7_uncertainty_scaling toy cUnc "A" 5 herr rfl
  rw [hu, Option.map_some']
  exact ⟨herr, rfl, hact, by rw [hdiv hact]⟩

/-- C10: memoization is observationally transparent — from any correct
instance state (in particular the fresh empty caches), a branching-info
query equals the cache-free computation, repeating the same query on the
updated state returns an equal result, and running `calculate` twice on
the same instance yields equal result lists, each equal to the cache-free
`calculate`. -/
theorem C10_memoization_transparent (P : DataProvider) (c : CalcInput)
    (st : CalcState) (hst : StateOK P st) :
    (∀ parent progeny,
      (getBranchingInfoC P c.decayType st parent progeny).1 =
        getBranchingInfo P c.decayType parent progeny ∧
      (getBranchingInfoC P c.decayType
          (getBranchingInfoC P c.decayType st parent progeny).2
          parent progeny).1 =
        (getBranchingInfoC P c.decayType st parent progeny).1) ∧
    (calculateC P c st).1 = calculate P c ∧
    (calculateC P c (calculateC P c st).2).1 = (calculateC P c st).1 := by
  have hcalc := calculateC_spec P c st hst
  have hcalc2 := calculateC_spec P c (calculateC P c st).2 hcalc.2
  refine ⟨?_, hcalc.1, by rw [hcalc2.1, hcalc.1]⟩
  intro parent progeny
  have h1 := getBranchingInfoC_spec P c.decayType st parent progeny hst
  have h2 := getBranchingInfoC_spec P c.decayType
    (getBranchingInfoC P c.decayType st parent progeny).2 parent progeny h1.2
  exact ⟨h1.1, by rw [h2.1, h1.1]⟩

/-- Witness for C10: the fresh-instance caches of the toy calculator are
transparent for the `A → D` query and for a repeated `calculate`. -/
theorem C10_witness :
    (getBranchingInfoC toy cCached.decayType initialState "A" "D").1 =
      getBranchingInfo toy cCached.decayType "A" "D" ∧
    (calculateC toy cCached initialState).1 = calculate toy cCached ∧
    (calculateC toy cCached (calculateC toy cCached initialState).2).1 =
      (calculateC toy cCached initialState).1 := by
  obtain ⟨hq, h1, h2⟩ :=
    C10_memoization_transparent toy cCached initialState (initialState_ok toy)
  exact ⟨(hq "A" "D").1, h1, h2⟩

end SecularEq
